import Mathlib

/-!
Shallow embedding of the `faucet` Go package (files `faucet.go`, `pipe.go`):
a rate-limited, polling-based fan-in/fan-out pipe.

Modelling choices:
* Go `error` values built by `fmt.Errorf` are modelled as an inductive
  `GoErr` tree keeping the index tags and the ` | ` join structure of
  `fmt.Errorf("%v | %v", err, outputErr)`.
* The worker goroutine (`Pipe.worker`) is modelled as a function from a
  per-iteration script (what the context, the stop channel, the ticker,
  the inputs and the outputs do on that iteration) to an event trace;
  the trace records mutex acquisition/release, input polls, output
  invocations, the terminal-error store and the `done` close, in the
  order the Go code performs them (deferred calls run last, LIFO).
* Scheduling nondeterminism of the output fan-out goroutines is exposed
  as the `arrival` field of the script: the order in which the per-output
  results are received from the `errs` channel.
* `time.Duration` is int64 nanoseconds; it is modelled as `Int` with
  Go's truncated division `Int.div` (no overflow is reachable for the
  values involved, `|60e9 / c| ≤ 60e9`).
-/

namespace Faucet

/-- Values transferred through the pipe (`interface{}` in Go), abstracted
to natural numbers; nothing in the pipe inspects the value. -/
abbrev Value := Nat

/-- Model of a Go error produced by the pipe, keeping the structure of the
`fmt.Errorf` formats used in `pipe.go` rather than flattening to strings. -/
inductive GoErr where
  /-- `faucet.Pipe context error: %v` -/
  | ctxError (msg : String)
  /-- `faucet.Pipe.input.%d error: %v` -/
  | inputError (idx : Nat) (msg : String)
  /-- `faucet.Pipe.input.%d recovered from panic (%T): %+v` -/
  | inputPanicRecovered (idx : Nat) (payload : String)
  /-- `faucet.Pipe.output.%d error: %v` -/
  | outputError (idx : Nat) (msg : String)
  /-- `faucet.Pipe.output.%d recovered from panic (%T): %+v` -/
  | outputPanicRecovered (idx : Nat) (payload : String)
  /-- `fmt.Errorf("%v | %v", err, outputErr)` -/
  | joined (a b : GoErr)
  deriving DecidableEq, Repr

/-- Result of one invocation of an input poll function
`func(ctx) (interface{}, bool, error)` on a given tick. -/
inductive InputResult where
  | found (v : Value)
  | notFound
  | errored (msg : String)
  | panicked (payload : String)
  deriving DecidableEq, Repr

/-- Behaviour of one output delivery function
`func(ctx, value) error` on a given tick. -/
inductive OutputResult where
  | ok
  | errored (msg : String)
  | panicked (payload : String)
  deriving DecidableEq, Repr

/-- Observable events of the worker, in program order. -/
inductive Event where
  /-- the `tick` closure is entered with loop counter `i` -/
  | startTick (i : Nat)
  /-- `p.mutex.Lock()` -/
  | lockAcquire
  /-- `p.mutex.Unlock()` -/
  | lockRelease
  /-- `p.inputs[idx](p.ctx)` is called -/
  | pollInput (idx : Nat)
  /-- the goroutine for output `idx` calls `output(p.ctx, v)` -/
  | invokeOutput (idx : Nat) (v : Value)
  /-- `p.err = err` in the worker's deferred function -/
  | setErr (e : Option GoErr)
  /-- `p.cancel()` -/
  | cancel
  /-- `close(p.done)` -/
  | closeDone
  deriving DecidableEq, Repr

/-- What the select in `Pipe.worker` (lines 271-286) observes on a
non-first iteration: the stop channel, the context, or the ticker. -/
inductive SelectChoice where
  | stopFired
  | ctxDone (msg : String)
  | tickFired
  deriving Repr

/-- Script for one iteration of the worker loop: the results of every
external interaction the iteration can perform. `ctxErrAt j` is what
`p.ctx.Err()` returns before polling the j-th candidate input inside
`tick`; `arrival` is the order in which the fan-out goroutines' results
arrive on the `errs` channel. -/
structure TickScript where
  /-- `p.ctx.Err()` at the head of the loop (line 159) -/
  headCtxErr : Option String
  /-- which select case fires (ignored on the first iteration) -/
  choice : SelectChoice
  /-- whether `<-p.stop` is readable inside `tick` (lines 172-177) -/
  stopClosed : Bool
  /-- `p.ctx.Err()` before the j-th candidate input is polled (line 182) -/
  ctxErrAt : Nat → Option String
  /-- snapshot of `p.inputs`: the result each registered input would give -/
  inputs : List InputResult
  /-- snapshot of `p.outputs`: the behaviour of each registered output -/
  outputs : List OutputResult
  /-- arrival order of the per-output results on the `errs` channel -/
  arrival : List Nat

/-- The error the goroutine for output `x` sends on the `errs` channel:
`nil` on success, an index-tagged error on failure, an index-tagged
recovered-panic error on panic (lines 219-235). -/
def outputErrOf (x : Nat) : OutputResult → Option GoErr
  | .ok => none
  | .errored m => some (.outputError x m)
  | .panicked p => some (.outputPanicRecovered x p)

/-- One step of the error-aggregation loop body (lines 241-250): a nil
result is skipped, the first non-nil result is kept, and later ones are
joined with `%v | %v`. -/
def collectStep (acc r : Option GoErr) : Option GoErr :=
  match r with
  | none => acc
  | some e =>
    match acc with
    | none => some e
    | some a => some (.joined a e)

/-- The error-aggregation loop over the `errs` channel (lines 238-251),
starting from `err = nil`. -/
def collectErrs (results : List (Option GoErr)) : Option GoErr :=
  results.foldl collectStep none

/-- Outcome of the body of the `tick` closure after the mutex is taken:
either a normal return carrying the `tick` return value, the `err`
variable and the updated `lastInput`, or a panic escaping from an input
call (which unwinds through `tick` into the worker's recover). -/
inductive InnerOut where
  | done (cont : Bool) (err : Option GoErr) (lastInput : Nat) (body : List Event)
  | panicked (payload : String) (lastInput : Nat) (body : List Event)
  deriving DecidableEq, Repr

/-- Prepends an event to the body trace of an `InnerOut`. -/
def InnerOut.prepend (ev : Event) : InnerOut → InnerOut
  | .done c e li b => .done c e li (ev :: b)
  | .panicked p li b => .panicked p li (ev :: b)

/-- The input-scan loop of `tick` (lines 181-255), iterating `j` over the
remaining list (`List.range inputLength` at the top call). Each step
checks the context, polls input `(i+j) % inputLength`, and on `found`
fans out to every output and aggregates their errors. -/
def scanLoop (i : Nat) (s : TickScript) (lastInput : Nat) : List Nat → InnerOut
  | [] => .done true none lastInput []
  | j :: rest =>
    match s.ctxErrAt j with
    | some m => .done false (some (.ctxError m)) lastInput []
    | none =>
      let li := (i + j) % s.inputs.length
      InnerOut.prepend (.pollInput li) <|
        match s.inputs.getD li .notFound with
        | .errored m => .done false (some (.inputError li m)) li []
        | .panicked p => .panicked p li []
        | .notFound => scanLoop i s li rest
        | .found v =>
          let outputLength := s.outputs.length
          if outputLength = 0 then
            .done true none li []
          else
            let invokes := (List.range outputLength).map (fun x => Event.invokeOutput x v)
            let e := collectErrs (s.arrival.map (fun x => outputErrOf x (s.outputs.getD x .ok)))
            .done e.isNone e li invokes

/-- Result of one call of the `tick` closure: a normal return (with the
boolean `tick` result, the `err` variable and `lastInput`), or a panic
unwinding out of it; `events` is the full trace including the mutex
acquire at entry and the deferred release at exit. -/
inductive TickOut where
  | normal (cont : Bool) (err : Option GoErr) (lastInput : Nat) (events : List Event)
  | panicked (payload : String) (lastInput : Nat) (events : List Event)
  deriving DecidableEq, Repr

/-- The `tick` closure (lines 167-259): take the mutex, re-check the stop
channel, snapshot the inputs/outputs, and run the scan loop; the deferred
unlock runs on every exit path, panic included. -/
def tick (i : Nat) (s : TickScript) (lastInput : Nat) : TickOut :=
  if s.stopClosed then
    .normal false none lastInput [.startTick i, .lockAcquire, .lockRelease]
  else
    match scanLoop i s lastInput (List.range s.inputs.length) with
    | .done c e li b => .normal c e li ([.startTick i, .lockAcquire] ++ b ++ [.lockRelease])
    | .panicked p li b => .panicked p li ([.startTick i, .lockAcquire] ++ b ++ [.lockRelease])

/-- Result of running the worker on a finite script list: `exited` when
the worker goroutine returned (its deferred recover/error-store, cancel
and `close(done)` have run), `running` when the script list was exhausted
with the loop still going. -/
inductive WorkerRes where
  | exited (err : Option GoErr) (trace : List Event)
  | running (trace : List Event)
  deriving DecidableEq, Repr

/-- The worker's exit path: the deferred function stores `err` into
`p.err` under the mutex, then `p.cancel()` runs, then `close(p.done)`
(deferred calls run in LIFO registration order, lines 138-156). -/
def workerExit (err : Option GoErr) (evs : List Event) : WorkerRes :=
  .exited err (evs ++ [.lockAcquire, .setErr err, .lockRelease, .cancel, .closeDone])

/-- Prepends events to the trace of a `WorkerRes`. -/
def WorkerRes.prepend (evs : List Event) : WorkerRes → WorkerRes
  | .exited e t => .exited e (evs ++ t)
  | .running t => .running (evs ++ t)

/-- How the worker handles one `tick` call's outcome (lines 262-269 and
281-285): `true` continues the loop (`k` is the rest of the loop, fed the
updated `lastInput`), `false` exits with the current `err`, and a panic
unwinding out of `tick` is recovered and tagged with `lastInput`. -/
def afterTick (out : TickOut) (k : Nat → WorkerRes) : WorkerRes :=
  match out with
  | .normal true _ li evs => (k li).prepend evs
  | .normal false e _ evs => workerExit e evs
  | .panicked p li evs => workerExit (some (.inputPanicRecovered li p)) evs

/-- The loop of `Pipe.worker` (lines 158-287). `i` is the loop counter,
`first` the immediate-first-tick flag, `lastInput` the recover tag. Each
list element scripts one iteration; an exhausted list means the loop is
still running. -/
def workerLoop : List TickScript → Nat → Bool → Nat → WorkerRes
  | [], _, _, _ => .running []
  | s :: rest, i, first, lastInput =>
    match s.headCtxErr with
    | some m => workerExit (some (.ctxError m)) []
    | none =>
      if first then
        afterTick (tick i s lastInput) (fun li => workerLoop rest (i + 1) false li)
      else
        match s.choice with
        | .stopFired => workerExit none []
        | .ctxDone m => workerExit (some (.ctxError m)) []
        | .tickFired =>
          afterTick (tick i s lastInput) (fun li => workerLoop rest (i + 1) false li)

/-- The worker as started by `Pipe.Start`: counter 0, first-tick pending. -/
def worker (scripts : List TickScript) : WorkerRes :=
  workerLoop scripts 0 true 0

/-- The mutex/lifecycle state of a `Pipe` relevant to `Start` and `Stop`:
whether `p.ticker` has been set (started) and whether `close(p.stop)` has
run (the `sync.Once` consumed). -/
structure PipeState where
  started : Bool
  stopClosed : Bool
  deriving DecidableEq, Repr

/-- `Pipe.Start` (lines 78-101): panics (modelled as `Except.error`) on a
nil context, a non-positive rate, or a second start; otherwise sets the
ticker (started) and launches the worker. -/
def Start (st : PipeState) (ctxIsNil : Bool) (rate : Int) : Except String PipeState :=
  if ctxIsNil then .error "faucet.Pipe.Start nil context"
  else if rate ≤ 0 then .error "faucet.Pipe.Start rate <= 0"
  else if st.started then .error "faucet.Pipe.Start already started"
  else .ok { st with started := true }

/-- `Pipe.Stop` (lines 105-115): panics if never started; otherwise
`p.close.Do(close(p.stop))` — the stop channel ends up closed whether or
not this call was the one that closed it. -/
def Stop (st : PipeState) : Except String PipeState :=
  if st.started then .ok { st with stopClosed := true }
  else .error "faucet.Pipe.Stop not started"

/-! ### Projections and trace predicates used by the specification -/

/-- Event trace of a `tick` call. -/
def TickOut.events : TickOut → List Event
  | .normal _ _ _ evs => evs
  | .panicked _ _ evs => evs

/-- The boolean `tick` returned (a panic never returns; the worker treats
it as loop exit, so `false`). -/
def TickOut.contOf : TickOut → Bool
  | .normal c _ _ _ => c
  | .panicked _ _ _ => false

/-- The `err` variable after the `tick` call returned normally. -/
def TickOut.errOf : TickOut → Option GoErr
  | .normal _ e _ _ => e
  | .panicked _ _ _ => none

/-- Full event trace of a worker run. -/
def WorkerRes.trace : WorkerRes → List Event
  | .exited _ t => t
  | .running t => t

/-- `some err` when the worker goroutine returned (storing `err` in
`p.err`), `none` when it is still looping. -/
def WorkerRes.exitErr : WorkerRes → Option (Option GoErr)
  | .exited e _ => some e
  | .running _ => none

/-- Whether an event is an input poll. -/
def Event.isPoll : Event → Bool
  | .pollInput _ => true
  | _ => false

/-- Whether an event is an output invocation. -/
def Event.isInvoke : Event → Bool
  | .invokeOutput _ _ => true
  | _ => false

/-- Whether an event is the terminal-error store `p.err = err`. -/
def Event.isSetErr : Event → Bool
  | .setErr _ => true
  | _ => false

/-- Whether an event is an input poll or an output invocation, i.e. a
call into user code. -/
def Event.isCall : Event → Bool
  | .pollInput _ => true
  | .invokeOutput _ _ => true
  | _ => false

/-- The loop-counter values of the `startTick` events of a trace, in
order. -/
def startTickVals (evs : List Event) : List Nat :=
  evs.filterMap fun e =>
    match e with
    | .startTick n => some n
    | _ => none

/-- The poll events for candidate offsets `js` on a tick with counter `i`
over `L` inputs. -/
def pollsOf (i L : Nat) (js : List Nat) : List Event :=
  js.map fun j => .pollInput ((i + j) % L)

/-- Prepends a list of events to the body trace of an `InnerOut`. -/
def InnerOut.prependAll (evs : List Event) : InnerOut → InnerOut
  | .done c e li b => .done c e li (evs ++ b)
  | .panicked p li b => .panicked p li (evs ++ b)

/-- Body trace of an `InnerOut`. -/
def InnerOut.body : InnerOut → List Event
  | .done _ _ _ b => b
  | .panicked _ _ b => b

/-- The individual (non-joined) errors inside a `GoErr`, left to right. -/
def GoErr.leaves : GoErr → List GoErr
  | .joined a b => a.leaves ++ b.leaves
  | e => [e]

/-- The individual errors inside an optional error. -/
def errLeaves : Option GoErr → List GoErr
  | none => []
  | some e => e.leaves

/-- Checks (scanning left to right, `d` = mutex hold depth) that no call
into user code happens while the worker holds the mutex — the lock
discipline asserted by the specification. -/
def locksFreeDuringCalls : Nat → List Event → Bool
  | _, [] => true
  | d, .lockAcquire :: r => locksFreeDuringCalls (d + 1) r
  | d, .lockRelease :: r => locksFreeDuringCalls (d - 1) r
  | d, .pollInput _ :: r => (d == 0) && locksFreeDuringCalls d r
  | d, .invokeOutput _ _ :: r => (d == 0) && locksFreeDuringCalls d r
  | d, _ :: r => locksFreeDuringCalls d r

/-- Checks that every call into user code and every terminal-error store
happens while the worker holds the mutex — what `pipe.go` actually
does (`tick` takes the mutex for its whole body). -/
def callsUnderLock : Nat → List Event → Bool
  | _, [] => true
  | d, .lockAcquire :: r => callsUnderLock (d + 1) r
  | d, .lockRelease :: r => callsUnderLock (d - 1) r
  | d, .pollInput _ :: r => (d != 0) && callsUnderLock d r
  | d, .invokeOutput _ _ :: r => (d != 0) && callsUnderLock d r
  | d, .setErr _ :: r => (d != 0) && callsUnderLock d r
  | d, _ :: r => callsUnderLock d r

/-! ### Concrete scripts used as witnesses -/

/-- An iteration that observes an already-cancelled context at the loop
head. -/
def cancelledScript : TickScript :=
  { headCtxErr := some "context canceled", choice := .tickFired, stopClosed := false,
    ctxErrAt := fun _ => none, inputs := [], outputs := [], arrival := [] }

/-- Two inputs (the one scanned second on tick 0 yields 42), two outputs
that both fail, results arriving in reversed order. -/
def twoFailScript : TickScript :=
  { headCtxErr := none, choice := .tickFired, stopClosed := false,
    ctxErrAt := fun _ => none,
    inputs := [.notFound, .found 42],
    outputs := [.errored "boom", .panicked "oops"],
    arrival := [1, 0] }

/-- A single input that reports an error on tick 0. -/
def inputErrScript : TickScript :=
  { headCtxErr := none, choice := .tickFired, stopClosed := false,
    ctxErrAt := fun _ => none,
    inputs := [.errored "bad", .notFound],
    outputs := [.ok],
    arrival := [0] }

/-- A single input yielding 7 delivered to a single successful output. -/
def underLockScript : TickScript :=
  { headCtxErr := none, choice := .tickFired, stopClosed := false,
    ctxErrAt := fun _ => none,
    inputs := [.found 7],
    outputs := [.ok],
    arrival := [0] }

/-- A script with no inputs registered at all. -/
def zeroInputScript : TickScript :=
  { headCtxErr := none, choice := .tickFired, stopClosed := false,
    ctxErrAt := fun _ => none,
    inputs := [],
    outputs := [.ok],
    arrival := [0] }

/-- Two inputs that both report "not found", one output. -/
def notFoundScript : TickScript :=
  { headCtxErr := none, choice := .tickFired, stopClosed := false,
    ctxErrAt := fun _ => none,
    inputs := [.notFound, .notFound],
    outputs := [.ok],
    arrival := [0] }

/-- `time.Minute` in nanoseconds. -/
def minuteNs : Int := 60000000000

/-- `RatePerMinute` (faucet.go lines 52-57): 0 for count 0, otherwise
`time.Minute / time.Duration(count)` — Go int64 division truncates
toward zero, which is `Int.tdiv`. -/
def RatePerMinute (count : Int) : Int :=
  if count = 0 then 0 else Int.tdiv minuteNs count

/-! ### Helper lemmas about the scan loop and worker traces -/

theorem InnerOut.prependAll_nil (o : InnerOut) : InnerOut.prependAll [] o = o := by
  cases o <;> simp [InnerOut.prependAll]

theorem InnerOut.prepend_prependAll (ev : Event) (evs : List Event) (o : InnerOut) :
    InnerOut.prepend ev (InnerOut.prependAll evs o) = InnerOut.prependAll (ev :: evs) o := by
  cases o <;> simp [InnerOut.prepend, InnerOut.prependAll]

theorem getD_notFound_of_all {l : List InputResult}
    (h : ∀ x ∈ l, x = InputResult.notFound) (n : Nat) :
    l.getD n .notFound = .notFound := by
  induction l generalizing n with
  | nil => simp [List.getD]
  | cons a t ih =>
    cases n with
    | zero => simpa using h a (by simp)
    | succ m =>
      rw [List.getD_cons_succ]
      exact ih (fun x hx => h x (by simp [hx])) m

theorem range_split (j L : Nat) (h : j < L) :
    List.range L = List.range j ++ j :: (List.range L).drop (j + 1) := by
  conv_lhs => rw [← List.take_append_drop j (List.range L)]
  congr 1
  · rw [List.take_range, Nat.min_eq_left h.le]
  · rw [List.drop_eq_getElem_cons (by simpa using h)]
    simp

theorem scanLoop_skip (i : Nat) (s : TickScript) (js₁ js₂ : List Nat) (li : Nat)
    (h : ∀ j ∈ js₁, s.ctxErrAt j = none ∧
      s.inputs.getD ((i + j) % s.inputs.length) .notFound = .notFound) :
    ∃ li', scanLoop i s li (js₁ ++ js₂) =
      InnerOut.prependAll (pollsOf i s.inputs.length js₁) (scanLoop i s li' js₂) := by
  induction js₁ generalizing li with
  | nil =>
    exact ⟨li, by simp [pollsOf, InnerOut.prependAll_nil]⟩
  | cons j t ih =>
    obtain ⟨hc, hnf⟩ := h j (by simp)
    obtain ⟨li', heq⟩ := ih ((i + j) % s.inputs.length) (fun x hx => h x (by simp [hx]))
    refine ⟨li', ?_⟩
    rw [List.cons_append]
    simp only [scanLoop, hc, hnf]
    rw [heq, InnerOut.prepend_prependAll]
    simp [pollsOf]

/-- When the first `j` rotated candidates report "not found" and the
next one yields `v`, with at least one output registered, `tick`
evaluates to: polls of the rotated prefix, one invocation per output
with the same value `v`, and the aggregated fan-out error. -/
theorem tick_found_outputs (i j : Nat) (v : Value) (s : TickScript) (li : Nat)
    (hstop : s.stopClosed = false)
    (hctx : ∀ k, s.ctxErrAt k = none)
    (hj : j < s.inputs.length)
    (hbefore : ∀ k < j, s.inputs.getD ((i + k) % s.inputs.length) .notFound = .notFound)
    (hfound : s.inputs.getD ((i + j) % s.inputs.length) .notFound = .found v)
    (houts : s.outputs.length ≠ 0) :
    tick i s li =
      .normal (collectErrs (s.arrival.map fun x => outputErrOf x (s.outputs.getD x .ok))).isNone
        (collectErrs (s.arrival.map fun x => outputErrOf x (s.outputs.getD x .ok)))
        ((i + j) % s.inputs.length)
        ([.startTick i, .lockAcquire] ++ pollsOf i s.inputs.length (List.range j) ++
          .pollInput ((i + j) % s.inputs.length) ::
          (List.range s.outputs.length).map (fun x => Event.invokeOutput x v) ++
          [.lockRelease]) := by
  obtain ⟨li', heq⟩ := scanLoop_skip i s (List.range j)
    (j :: (List.range s.inputs.length).drop (j + 1)) li
    (fun k hk => ⟨hctx k, hbefore k (List.mem_range.mp hk)⟩)
  rw [← range_split j s.inputs.length hj] at heq
  simp only [tick, hstop, Bool.false_eq_true, if_false, heq]
  simp only [scanLoop, hctx j, hfound, houts, if_false]
  simp [InnerOut.prependAll, InnerOut.prepend]

/-- Same scan reaching `v`, but with zero outputs registered: the tick
ends successfully with nothing to fan out to. -/
theorem tick_found_no_outputs (i j : Nat) (v : Value) (s : TickScript) (li : Nat)
    (hstop : s.stopClosed = false)
    (hctx : ∀ k, s.ctxErrAt k = none)
    (hj : j < s.inputs.length)
    (hbefore : ∀ k < j, s.inputs.getD ((i + k) % s.inputs.length) .notFound = .notFound)
    (hfound : s.inputs.getD ((i + j) % s.inputs.length) .notFound = .found v)
    (houts : s.outputs.length = 0) :
    tick i s li =
      .normal true none ((i + j) % s.inputs.length)
        ([.startTick i, .lockAcquire] ++ pollsOf i s.inputs.length (List.range j) ++
          [.pollInput ((i + j) % s.inputs.length), .lockRelease]) := by
  obtain ⟨li', heq⟩ := scanLoop_skip i s (List.range j)
    (j :: (List.range s.inputs.length).drop (j + 1)) li
    (fun k hk => ⟨hctx k, hbefore k (List.mem_range.mp hk)⟩)
  rw [← range_split j s.inputs.length hj] at heq
  simp only [tick, hstop, Bool.false_eq_true, if_false, heq]
  simp only [scanLoop, hctx j, hfound, houts, if_true]
  simp [InnerOut.prependAll, InnerOut.prepend]

/-- When the first `j` rotated candidates report "not found" and the
next one reports an error, `tick` aborts: it returns `false` with the
index-tagged wrapped error, polling nothing further and invoking no
output. -/
theorem tick_input_error (i j : Nat) (msg : String) (s : TickScript) (li : Nat)
    (hstop : s.stopClosed = false)
    (hctx : ∀ k, s.ctxErrAt k = none)
    (hj : j < s.inputs.length)
    (hbefore : ∀ k < j, s.inputs.getD ((i + k) % s.inputs.length) .notFound = .notFound)
    (herr : s.inputs.getD ((i + j) % s.inputs.length) .notFound = .errored msg) :
    tick i s li =
      .normal false (some (.inputError ((i + j) % s.inputs.length) msg))
        ((i + j) % s.inputs.length)
        ([.startTick i, .lockAcquire] ++ pollsOf i s.inputs.length (List.range j) ++
          [.pollInput ((i + j) % s.inputs.length), .lockRelease]) := by
  obtain ⟨li', heq⟩ := scanLoop_skip i s (List.range j)
    (j :: (List.range s.inputs.length).drop (j + 1)) li
    (fun k hk => ⟨hctx k, hbefore k (List.mem_range.mp hk)⟩)
  rw [← range_split j s.inputs.length hj] at heq
  simp only [tick, hstop, Bool.false_eq_true, if_false, heq]
  simp only [scanLoop, hctx j, herr]
  simp [InnerOut.prependAll, InnerOut.prepend]

/-- A tick whose inputs all report "not found" polls every input in
rotated order and completes as a clean no-op. -/
theorem tick_all_notFound (i : Nat) (s : TickScript) (li : Nat)
    (hstop : s.stopClosed = false)
    (hctx : ∀ k, s.ctxErrAt k = none)
    (hall : ∀ x ∈ s.inputs, x = InputResult.notFound) :
    ∃ li', tick i s li =
      .normal true none li'
        ([.startTick i, .lockAcquire] ++
          pollsOf i s.inputs.length (List.range s.inputs.length) ++ [.lockRelease]) := by
  obtain ⟨li', heq⟩ := scanLoop_skip i s (List.range s.inputs.length) [] li
    (fun k _ => ⟨hctx k, getD_notFound_of_all hall _⟩)
  rw [List.append_nil] at heq
  refine ⟨li', ?_⟩
  simp only [tick, hstop, Bool.false_eq_true, if_false, heq]
  simp [scanLoop, InnerOut.prependAll]

/-- A tick with zero inputs registered is a clean no-op: no poll, no
invocation, no error. -/
theorem tick_no_inputs (i : Nat) (s : TickScript) (li : Nat)
    (hstop : s.stopClosed = false) (hin : s.inputs = []) :
    tick i s li = .normal true none li [.startTick i, .lockAcquire, .lockRelease] := by
  simp [tick, hstop, hin, scanLoop]

theorem InnerOut.body_prepend (ev : Event) (o : InnerOut) :
    (InnerOut.prepend ev o).body = ev :: o.body := by
  cases o <;> simp [InnerOut.prepend, InnerOut.body]

/-- Every event the scan loop itself records is a call into user code
(an input poll or an output invocation). -/
theorem scanLoop_body_calls (i : Nat) (s : TickScript) (js : List Nat) :
    ∀ li, ∀ e ∈ (scanLoop i s li js).body, e.isCall = true := by
  induction js with
  | nil =>
    intro li e he
    simp [scanLoop, InnerOut.body] at he
  | cons j rest ih =>
    intro li e he
    simp only [scanLoop] at he
    cases hc : s.ctxErrAt j with
    | some m =>
      rw [hc] at he
      simp [InnerOut.body] at he
    | none =>
      rw [hc] at he
      simp only [InnerOut.body_prepend, List.mem_cons] at he
      rcases he with rfl | he
      · rfl
      cases hg : s.inputs.getD ((i + j) % s.inputs.length) .notFound with
      | found v =>
        rw [hg] at he
        by_cases ho : s.outputs.length = 0
        · simp [ho, InnerOut.body] at he
        · simp only [ho, if_false, InnerOut.body, List.mem_map] at he
          obtain ⟨x, _, rfl⟩ := he
          rfl
      | notFound =>
        rw [hg] at he
        exact ih _ e he
      | errored m =>
        rw [hg] at he
        simp [InnerOut.body] at he
      | panicked p =>
        rw [hg] at he
        simp [InnerOut.body] at he

/-- The trace of any `tick` call is the tick marker, the mutex acquire,
calls into user code, and the deferred mutex release. -/
theorem tick_events_shape (i : Nat) (s : TickScript) (li : Nat) :
    ∃ body, (tick i s li).events =
      [Event.startTick i, .lockAcquire] ++ body ++ [.lockRelease] ∧
      ∀ e ∈ body, e.isCall = true := by
  by_cases hstop : s.stopClosed
  · exact ⟨[], by simp [tick, hstop, TickOut.events]⟩
  · have hb := scanLoop_body_calls i s (List.range s.inputs.length) li
    simp only [tick, hstop, Bool.false_eq_true, if_false]
    cases hs : scanLoop i s li (List.range s.inputs.length) with
    | done c e li' b =>
      refine ⟨b, by simp [TickOut.events], ?_⟩
      rw [hs] at hb
      simpa [InnerOut.body] using hb
    | panicked p li' b =>
      refine ⟨b, by simp [TickOut.events], ?_⟩
      rw [hs] at hb
      simpa [InnerOut.body] using hb

theorem startTickVals_of_calls (evs : List Event) (h : ∀ e ∈ evs, e.isCall = true) :
    startTickVals evs = [] := by
  induction evs with
  | nil => rfl
  | cons e t ih =>
    have he := h e (by simp)
    have ht := ih fun x hx => h x (by simp [hx])
    cases e <;> simp_all [Event.isCall, startTickVals]

/-- Every `tick` trace contains exactly one `startTick` marker, carrying
the loop counter of that tick. -/
theorem startTickVals_tick (i : Nat) (s : TickScript) (li : Nat) :
    startTickVals (tick i s li).events = [i] := by
  obtain ⟨body, hsh, hcalls⟩ := tick_events_shape i s li
  rw [hsh]
  simp only [startTickVals, List.filterMap_append]
  rw [show List.filterMap _ body = startTickVals body from rfl,
    startTickVals_of_calls body hcalls]
  rfl

/-- No `tick` trace stores the terminal error or closes the done
channel: those happen only on the worker's exit path. -/
theorem tick_no_setErr_closeDone (i : Nat) (s : TickScript) (li : Nat) :
    ∀ e ∈ (tick i s li).events, e.isSetErr = false ∧ e ≠ .closeDone := by
  obtain ⟨body, hsh, hcalls⟩ := tick_events_shape i s li
  rw [hsh]
  intro e he
  simp only [List.mem_append, List.mem_cons, List.not_mem_nil, or_false] at he
  rcases he with ((rfl | rfl) | hb) | rfl
  · exact ⟨rfl, by simp⟩
  · exact ⟨rfl, by simp⟩
  · have := hcalls e hb
    cases e <;> simp_all [Event.isCall, Event.isSetErr]
  · exact ⟨rfl, by simp⟩

theorem filter_isPoll_pollsOf (i L : Nat) (js : List Nat) :
    (pollsOf i L js).filter Event.isPoll = pollsOf i L js := by
  induction js with
  | nil => rfl
  | cons j t ih => simp [pollsOf, List.filter, Event.isPoll]

theorem filter_isPoll_invokes (n : Nat) (v : Value) :
    ((List.range n).map fun x => Event.invokeOutput x v).filter Event.isPoll = [] := by
  rw [List.filter_eq_nil_iff]
  intro e he
  obtain ⟨x, _, rfl⟩ := List.mem_map.mp he
  simp [Event.isPoll]

theorem filter_notPoll_pollsOf (i L : Nat) (js : List Nat) :
    (pollsOf i L js).filter (fun e => !e.isPoll) = [] := by
  rw [List.filter_eq_nil_iff]
  intro e he
  obtain ⟨x, _, rfl⟩ := List.mem_map.mp he
  simp [Event.isPoll]

theorem WorkerRes.trace_prepend (evs : List Event) (r : WorkerRes) :
    (WorkerRes.prepend evs r).trace = evs ++ r.trace := by
  cases r <;> rfl

/-- On an iteration that reaches `tick` (the immediate first tick, or
the ticker firing), the worker is `afterTick` of the tick's outcome. -/
theorem workerLoop_cons_tick (s : TickScript) (rest : List TickScript)
    (i li : Nat) (first : Bool)
    (hh : s.headCtxErr = none) (hfc : first = true ∨ s.choice = .tickFired) :
    workerLoop (s :: rest) i first li =
      afterTick (tick i s li) (fun li' => workerLoop rest (i + 1) false li') := by
  cases first with
  | true =>
    rw [workerLoop, hh]
    simp
  | false =>
    rcases hfc with hfc | hfc
    · exact absurd hfc (by simp)
    · rw [workerLoop, hh]
      simp [hfc]

theorem startTickVals_append (a b : List Event) :
    startTickVals (a ++ b) = startTickVals a ++ startTickVals b :=
  List.filterMap_append a b _

theorem startTickVals_exit (e : Option GoErr) :
    startTickVals [.lockAcquire, .setErr e, .lockRelease, .cancel, .closeDone] = [] := rfl

theorem cons_map_range (i t : Nat) :
    i :: (List.range t).map (fun k => (i + 1) + k) =
      (List.range (t + 1)).map (fun k => i + k) := by
  rw [List.range_succ_eq_map, List.map_cons, List.map_map]
  refine List.cons_eq_cons.mpr ⟨by omega, ?_⟩
  refine List.map_congr_left fun k _ => ?_
  simp [Function.comp]
  omega

/-- The loop counters of the ticks a worker run starts are consecutive,
beginning at the initial counter: the counter advances by exactly one
per tick. -/
theorem startTickVals_workerLoop (scripts : List TickScript) :
    ∀ (i : Nat) (first : Bool) (li : Nat), ∃ t,
      startTickVals (workerLoop scripts i first li).trace =
        (List.range t).map (fun k => i + k) := by
  induction scripts with
  | nil =>
    intro i first li
    exact ⟨0, by simp [workerLoop, WorkerRes.trace, startTickVals]⟩
  | cons s rest ih =>
    intro i first li
    cases hh : s.headCtxErr with
    | some m =>
      refine ⟨0, ?_⟩
      simp [workerLoop, hh, workerExit, WorkerRes.trace, startTickVals]
    | none =>
      have key : ∃ t,
          startTickVals (afterTick (tick i s li)
            (fun li' => workerLoop rest (i + 1) false li')).trace =
          (List.range t).map (fun k => i + k) := by
        cases ht : tick i s li with
        | normal c e li' evs =>
          have hevs : startTickVals evs = [i] := by
            have h0 := startTickVals_tick i s li
            rw [ht] at h0
            simpa [TickOut.events] using h0
          cases c with
          | true =>
            obtain ⟨t', hrec⟩ := ih (i + 1) false li'
            refine ⟨t' + 1, ?_⟩
            rw [afterTick, WorkerRes.trace_prepend, startTickVals_append, hevs, hrec]
            rw [List.singleton_append]
            exact cons_map_range i t'
          | false =>
            refine ⟨1, ?_⟩
            rw [afterTick]
            simp only [workerExit, WorkerRes.trace, startTickVals_append, hevs,
              startTickVals_exit]
            simp [List.range_succ]
        | panicked p li' evs =>
          have hevs : startTickVals evs = [i] := by
            have h0 := startTickVals_tick i s li
            rw [ht] at h0
            simpa [TickOut.events] using h0
          refine ⟨1, ?_⟩
          rw [afterTick]
          simp only [workerExit, WorkerRes.trace, startTickVals_append, hevs,
            startTickVals_exit]
          simp [List.range_succ]
      cases first with
      | true =>
        simpa only [workerLoop, hh, if_true] using key
      | false =>
        cases hc : s.choice with
        | stopFired =>
          refine ⟨0, ?_⟩
          simp [workerLoop, hh, hc, workerExit, WorkerRes.trace, startTickVals]
        | ctxDone m =>
          refine ⟨0, ?_⟩
          simp [workerLoop, hh, hc, workerExit, WorkerRes.trace, startTickVals]
        | tickFired =>
          simpa only [workerLoop, hh, hc] using key

/-- If the worker exits, its trace is some loop events (none of which
store the terminal error or close the done channel) followed by exactly
the exit sequence: store `err` under the mutex, cancel the inner
context, close the done channel. -/
theorem workerLoop_exit_shape (scripts : List TickScript) :
    ∀ (i : Nat) (first : Bool) (li : Nat) (e : Option GoErr) (tr : List Event),
      workerLoop scripts i first li = .exited e tr →
      ∃ pre, tr = pre ++ [.lockAcquire, .setErr e, .lockRelease, .cancel, .closeDone] ∧
        ∀ ev ∈ pre, ev.isSetErr = false ∧ ev ≠ .closeDone := by
  induction scripts with
  | nil =>
    intro i first li e tr h
    exact absurd h (by simp [workerLoop])
  | cons s rest ih =>
    intro i first li e tr h
    have htickprops : ∀ ev ∈ (tick i s li).events, ev.isSetErr = false ∧ ev ≠ .closeDone :=
      tick_no_setErr_closeDone i s li
    have key : afterTick (tick i s li) (fun li' => workerLoop rest (i + 1) false li') =
        .exited e tr →
        ∃ pre, tr = pre ++ [.lockAcquire, .setErr e, .lockRelease, .cancel, .closeDone] ∧
          ∀ ev ∈ pre, ev.isSetErr = false ∧ ev ≠ .closeDone := by
      intro hstep
      cases ht : tick i s li with
      | normal c e' li' evs =>
        rw [ht] at hstep
        have hevs : ∀ ev ∈ evs, ev.isSetErr = false ∧ ev ≠ .closeDone := by
          rw [ht] at htickprops
          simpa [TickOut.events] using htickprops
        cases c with
        | true =>
          rw [afterTick] at hstep
          cases hr : workerLoop rest (i + 1) false li' with
          | running t =>
            rw [hr] at hstep
            exact absurd hstep (by simp [WorkerRes.prepend])
          | exited e2 t2 =>
            rw [hr] at hstep
            simp only [WorkerRes.prepend, WorkerRes.exited.injEq] at hstep
            obtain ⟨he2, htr⟩ := hstep
            obtain ⟨pre0, hpre0, hprop0⟩ := ih (i + 1) false li' e2 t2 hr
            refine ⟨evs ++ pre0, ?_, ?_⟩
            · rw [← htr, hpre0, he2, List.append_assoc]
            · intro ev hev
              rcases List.mem_append.mp hev with h1 | h2
              · exact hevs ev h1
              · exact hprop0 ev h2
        | false =>
          rw [afterTick] at hstep
          simp only [workerExit, WorkerRes.exited.injEq] at hstep
          obtain ⟨rfl, rfl⟩ := hstep
          exact ⟨evs, rfl, hevs⟩
      | panicked p li' evs =>
        rw [ht] at hstep
        rw [afterTick] at hstep
        simp only [workerExit, WorkerRes.exited.injEq] at hstep
        obtain ⟨rfl, rfl⟩ := hstep
        have hevs : ∀ ev ∈ evs, ev.isSetErr = false ∧ ev ≠ .closeDone := by
          rw [ht] at htickprops
          simpa [TickOut.events] using htickprops
        exact ⟨evs, rfl, hevs⟩
    cases hh : s.headCtxErr with
    | some m =>
      rw [workerLoop, hh] at h
      simp only [workerExit, WorkerRes.exited.injEq] at h
      obtain ⟨rfl, rfl⟩ := h
      exact ⟨[], rfl, by simp⟩
    | none =>
      cases first with
      | true =>
        rw [workerLoop, hh] at h
        exact key (by simpa using h)
      | false =>
        cases hc : s.choice with
        | stopFired =>
          rw [workerLoop, hh, hc] at h
          simp only [workerExit, WorkerRes.exited.injEq] at h
          obtain ⟨rfl, rfl⟩ := h
          exact ⟨[], rfl, by simp⟩
        | ctxDone m =>
          rw [workerLoop, hh, hc] at h
          simp only [workerExit, WorkerRes.exited.injEq] at h
          obtain ⟨rfl, rfl⟩ := h
          exact ⟨[], rfl, by simp⟩
        | tickFired =>
          rw [workerLoop, hh, hc] at h
          exact key (by simpa using h)

/-- A tick that returns `false` makes the worker exit with the tick's
error, storing it and closing the done channel. -/
theorem workerLoop_exits_on_false (s : TickScript) (rest : List TickScript)
    (i li : Nat) (first : Bool)
    (hh : s.headCtxErr = none) (hfc : first = true ∨ s.choice = .tickFired)
    (e : Option GoErr) (li' : Nat) (evs : List Event)
    (ht : tick i s li = .normal false e li' evs) :
    workerLoop (s :: rest) i first li =
      .exited e (evs ++ [.lockAcquire, .setErr e, .lockRelease, .cancel, .closeDone]) := by
  cases first with
  | true =>
    rw [workerLoop, hh]
    simp only [if_true]
    rw [ht, afterTick, workerExit]
  | false =>
    rcases hfc with hfc | hfc
    · exact absurd hfc (by simp)
    · rw [workerLoop, hh]
      simp [hfc, ht, afterTick, workerExit]

theorem GoErr.leaves_ne_nil (e : GoErr) : e.leaves ≠ [] := by
  induction e <;> simp_all [GoErr.leaves]

theorem errLeaves_foldl (l : List (Option GoErr))
    (h : ∀ e, some e ∈ l → GoErr.leaves e = [e]) :
    ∀ acc, errLeaves (l.foldl collectStep acc) = errLeaves acc ++ l.filterMap id := by
  induction l with
  | nil => intro acc; simp
  | cons r t ih =>
    intro acc
    have ht := ih fun e he => h e (by simp [he])
    cases r with
    | none =>
      simp only [List.foldl_cons, collectStep, List.filterMap_cons]
      exact ht acc
    | some e =>
      have he : GoErr.leaves e = [e] := h e (by simp)
      cases acc with
      | none =>
        simp only [List.foldl_cons, collectStep, List.filterMap_cons]
        rw [ht (some e)]
        simp [errLeaves, he]
      | some a =>
        simp only [List.foldl_cons, collectStep, List.filterMap_cons]
        rw [ht (some (.joined a e))]
        simp [errLeaves, GoErr.leaves, he]

/-- The leaves of the aggregated fan-out error are exactly the non-nil
per-output results, in arrival order. -/
theorem errLeaves_collectErrs (l : List (Option GoErr))
    (h : ∀ e, some e ∈ l → GoErr.leaves e = [e]) :
    errLeaves (collectErrs l) = l.filterMap id := by
  rw [collectErrs, errLeaves_foldl l h none]
  rfl

theorem collectErrs_eq_none_iff (l : List (Option GoErr))
    (h : ∀ e, some e ∈ l → GoErr.leaves e = [e]) :
    collectErrs l = none ↔ l.filterMap id = [] := by
  have hl := errLeaves_collectErrs l h
  constructor
  · intro hn
    rw [hn] at hl
    exact hl.symm
  · intro hf
    rw [hf] at hl
    cases hc : collectErrs l with
    | none => rfl
    | some e =>
      rw [hc] at hl
      exact absurd hl (GoErr.leaves_ne_nil e)

/-- With zero inputs registered (and neither stop nor cancellation), the
worker keeps looping: every tick is a clean no-op, no user code is
invoked, and the terminal error is never stored. -/
theorem workerLoop_no_inputs (scripts : List TickScript)
    (h : ∀ s ∈ scripts, s.headCtxErr = none ∧ s.stopClosed = false ∧
      s.choice = SelectChoice.tickFired ∧ s.inputs = []) :
    ∀ (i : Nat) (first : Bool) (li : Nat), ∃ tr,
      workerLoop scripts i first li = .running tr ∧
      ∀ e ∈ tr, e.isCall = false ∧ e.isSetErr = false := by
  induction scripts with
  | nil =>
    intro i first li
    exact ⟨[], rfl, by simp⟩
  | cons s rest ih =>
    intro i first li
    obtain ⟨hh, hstop, hc, hin⟩ := h s (by simp)
    obtain ⟨tr', hrun, hprop⟩ := ih (fun x hx => h x (by simp [hx])) (i + 1) false li
    have ht := tick_no_inputs i s li hstop hin
    have key : workerLoop (s :: rest) i first li =
        .running ([Event.startTick i, .lockAcquire, .lockRelease] ++ tr') := by
      rw [workerLoop_cons_tick s rest i li first hh (Or.inr hc), ht, afterTick, hrun]
      rfl
    refine ⟨_, key, ?_⟩
    intro e he
    rcases List.mem_append.mp he with h1 | h2
    · simp only [List.mem_cons, List.not_mem_nil, or_false] at h1
      rcases h1 with rfl | rfl | rfl
      · exact ⟨rfl, rfl⟩
      · exact ⟨rfl, rfl⟩
      · exact ⟨rfl, rfl⟩
    · exact hprop e h2

/-- A worker whose inputs all always report "not found" keeps looping
like the zero-input worker: erasing the poll events from its trace gives
exactly the zero-input worker's trace, and it never invokes an output or
stores an error. -/
theorem workerLoop_all_notFound (scripts : List TickScript)
    (h : ∀ s ∈ scripts, s.headCtxErr = none ∧ s.stopClosed = false ∧
      s.choice = SelectChoice.tickFired ∧ (∀ k, s.ctxErrAt k = none) ∧
      (∀ x ∈ s.inputs, x = InputResult.notFound)) :
    ∀ (i : Nat) (first : Bool) (li li₂ : Nat), ∃ tr tr₂,
      workerLoop scripts i first li = .running tr ∧
      workerLoop (scripts.map fun s => { s with inputs := [] }) i first li₂ = .running tr₂ ∧
      tr.filter (fun e => !e.isPoll) = tr₂ ∧
      ∀ e ∈ tr, e.isInvoke = false ∧ e.isSetErr = false := by
  induction scripts with
  | nil =>
    intro i first li li₂
    exact ⟨[], [], rfl, rfl, rfl, by simp⟩
  | cons s rest ih =>
    intro i first li li₂
    obtain ⟨hh, hstop, hc, hctx, hall⟩ := h s (by simp)
    obtain ⟨li', ht⟩ := tick_all_notFound i s li hstop hctx hall
    obtain ⟨tr', tr₂', hrun, hrun₂, hfilter, hprop⟩ :=
      ih (fun x hx => h x (by simp [hx])) (i + 1) false li' li₂
    have ht₂ : tick i { s with inputs := [] } li₂ =
        .normal true none li₂ [.startTick i, .lockAcquire, .lockRelease] :=
      tick_no_inputs i _ li₂ hstop rfl
    have key : workerLoop (s :: rest) i first li =
        .running (([Event.startTick i, .lockAcquire] ++
          pollsOf i s.inputs.length (List.range s.inputs.length) ++ [.lockRelease]) ++ tr') := by
      rw [workerLoop_cons_tick s rest i li first hh (Or.inr hc), ht, afterTick, hrun]
      rfl
    have key₂ : workerLoop ((s :: rest).map fun s => { s with inputs := [] }) i first li₂ =
        .running ([Event.startTick i, .lockAcquire, .lockRelease] ++ tr₂') := by
      rw [List.map_cons,
        workerLoop_cons_tick { s with inputs := [] } (rest.map fun s => { s with inputs := [] })
          i li₂ first hh (Or.inr hc),
        ht₂, afterTick, hrun₂]
      rfl
    refine ⟨_, _, key, key₂, ?_, ?_⟩
    · simp only [List.filter_append, filter_notPoll_pollsOf, hfilter]
      simp [List.filter, Event.isPoll]
    · intro e he
      rcases List.mem_append.mp he with h1 | h2
      · simp only [List.mem_append, List.mem_cons, List.not_mem_nil, or_false] at h1
        rcases h1 with ((rfl | rfl) | hpol) | rfl
        · exact ⟨rfl, rfl⟩
        · exact ⟨rfl, rfl⟩
        · obtain ⟨x, _, rfl⟩ : ∃ a < s.inputs.length,
              Event.pollInput ((i + a) % s.inputs.length) = e := by
            simpa [pollsOf] using hpol
          exact ⟨rfl, rfl⟩
        · exact ⟨rfl, rfl⟩
      · exact hprop e h2

theorem callsUnderLock_calls (evs : List Event) (h : ∀ e ∈ evs, e.isCall = true) :
    ∀ (d : Nat), d ≠ 0 → ∀ r, callsUnderLock d (evs ++ r) = callsUnderLock d r := by
  induction evs with
  | nil => intro d _ r; rfl
  | cons e t ih =>
    intro d hd r
    have he := h e (by simp)
    have ht := ih (fun x hx => h x (by simp [hx])) d hd r
    cases e <;> simp_all [callsUnderLock, Event.isCall, bne_iff_ne]

theorem callsUnderLock_tick (i : Nat) (s : TickScript) (li : Nat) (r : List Event) :
    callsUnderLock 0 ((tick i s li).events ++ r) = callsUnderLock 0 r := by
  obtain ⟨body, hsh, hcalls⟩ := tick_events_shape i s li
  rw [hsh]
  have hform : ([Event.startTick i, Event.lockAcquire] ++ body ++ [Event.lockRelease]) ++ r =
      Event.startTick i :: Event.lockAcquire :: (body ++ ([Event.lockRelease] ++ r)) := by
    simp
  rw [hform]
  rw [show callsUnderLock 0
      (Event.startTick i :: Event.lockAcquire :: (body ++ ([Event.lockRelease] ++ r))) =
      callsUnderLock 1 (body ++ ([Event.lockRelease] ++ r)) from rfl]
  rw [callsUnderLock_calls body hcalls 1 one_ne_zero ([Event.lockRelease] ++ r)]
  rfl

theorem callsUnderLock_exit (e : Option GoErr) :
    callsUnderLock 0 [.lockAcquire, .setErr e, .lockRelease, .cancel, .closeDone] = true := rfl

/-- In every worker run, every input poll, every output fan-out, and the
terminal-error store happen while the worker holds the mutex. -/
theorem workerLoop_calls_under_lock (scripts : List TickScript) :
    ∀ (i : Nat) (first : Bool) (li : Nat),
      callsUnderLock 0 (workerLoop scripts i first li).trace = true := by
  induction scripts with
  | nil => intro i first li; rfl
  | cons s rest ih =>
    intro i first li
    cases hh : s.headCtxErr with
    | some m =>
      rw [workerLoop, hh]
      exact callsUnderLock_exit _
    | none =>
      have key : callsUnderLock 0
          (afterTick (tick i s li) (fun li' => workerLoop rest (i + 1) false li')).trace =
          true := by
        cases ht : tick i s li with
        | normal c e li' evs =>
          have hcut := callsUnderLock_tick i s li
          rw [ht] at hcut
          simp only [TickOut.events] at hcut
          cases c with
          | true =>
            rw [afterTick, WorkerRes.trace_prepend, hcut]
            exact ih (i + 1) false li'
          | false =>
            rw [afterTick]
            simp only [workerExit, WorkerRes.trace]
            rw [hcut]
            exact callsUnderLock_exit e
        | panicked p li' evs =>
          have hcut := callsUnderLock_tick i s li
          rw [ht] at hcut
          simp only [TickOut.events] at hcut
          rw [afterTick]
          simp only [workerExit, WorkerRes.trace]
          rw [hcut]
          exact callsUnderLock_exit _
      cases first with
      | true =>
        rw [workerLoop_cons_tick s rest i li true hh (Or.inl rfl)]
        exact key
      | false =>
        cases hc : s.choice with
        | stopFired =>
          rw [workerLoop, hh]
          simp only [Bool.false_eq_true, if_false, hc]
          exact callsUnderLock_exit _
        | ctxDone m =>
          rw [workerLoop, hh]
          simp only [Bool.false_eq_true, if_false, hc]
          exact callsUnderLock_exit _
        | tickFired =>
          rw [workerLoop_cons_tick s rest i li false hh (Or.inr hc)]
          exact key

/-! ### Theorems -/

/-- C8: for every positive count `c`, `RatePerMinute c` is one minute
divided by `c` with integer-truncating division — it equals both Go's
truncated division `Int.tdiv` and the natural-number floor division
`60000000000 / c`, and satisfies the truncated-quotient bounds
`q * c ≤ 60s < (q+1) * c`; and `RatePerMinute 0` is the zero duration. -/
theorem ratePerMinute_conversion (c : Int) (h : 0 < c) :
    RatePerMinute c = Int.tdiv minuteNs c ∧
    RatePerMinute c = ((60000000000 / c.toNat : Nat) : Int) ∧
    RatePerMinute c * c ≤ minuteNs ∧
    minuteNs < (RatePerMinute c + 1) * c ∧
    RatePerMinute 0 = 0 := by
  have hne : c ≠ 0 := ne_of_gt h
  have h1 : RatePerMinute c = Int.tdiv minuteNs c := by simp [RatePerMinute, hne]
  have hm : (0 : Int) ≤ minuteNs := by norm_num [minuteNs]
  have hed : Int.tdiv minuteNs c = minuteNs / c := Int.tdiv_eq_ediv hm h.le
  refine ⟨h1, ?_, ?_, ?_, by simp [RatePerMinute]⟩
  · have htn : ((c.toNat : Int)) = c := Int.toNat_of_nonneg h.le
    rw [h1, ← htn]
    have := Int.ofNat_tdiv 60000000000 c.toNat
    simp only [minuteNs]
    exact_mod_cast this.symm
  · rw [h1, hed]
    exact Int.ediv_mul_le minuteNs hne
  · rw [h1, hed]
    exact Int.lt_ediv_add_one_mul_self minuteNs h

/-- Witness for C8 at `c = 7`: `RatePerMinute 7 = 8571428571`. -/
theorem ratePerMinute_conversion_witness :
    (0 : Int) < 7 ∧
    (RatePerMinute 7 = Int.tdiv minuteNs 7 ∧
     RatePerMinute 7 = ((60000000000 / (7 : Int).toNat : Nat) : Int) ∧
     RatePerMinute 7 * 7 ≤ minuteNs ∧
     minuteNs < (RatePerMinute 7 + 1) * 7 ∧
     RatePerMinute 0 = 0) :=
  ⟨by norm_num, ratePerMinute_conversion 7 (by norm_num)⟩

/-- C10 counterexample: for `c = -60000000001` (more than one minute of
nanoseconds in magnitude) the truncated quotient is `0`, which is not a
negative duration, so "returns the negative duration" fails as stated. -/
theorem ratePerMinute_negative_counterexample :
    RatePerMinute (-60000000001) = 0 ∧ ¬ RatePerMinute (-60000000001) < 0 := by
  constructor
  · decide
  · decide

/-- C10 amended: for every negative count `c`, `RatePerMinute c` equals
one minute divided by `c` with integer-truncating division (the negation
of the natural floor quotient over `-c`), it is never positive, and it is
strictly negative exactly when `-minuteNs ≤ c`, i.e. when `|c|` does not
exceed one minute of nanoseconds; the conversion is total over `Int`. -/
theorem ratePerMinute_negative (c : Int) (h : c < 0) :
    RatePerMinute c = Int.tdiv minuteNs c ∧
    RatePerMinute c = -(((60000000000 / (-c).toNat : Nat)) : Int) ∧
    RatePerMinute c ≤ 0 ∧
    (RatePerMinute c < 0 ↔ -minuteNs ≤ c) := by
  have hne : c ≠ 0 := ne_of_lt h
  have h1 : RatePerMinute c = Int.tdiv minuteNs c := by simp [RatePerMinute, hne]
  have hcn : c = -(((-c).toNat : Int)) := by
    rw [Int.toNat_of_nonneg (by omega)]
    ring
  have hpos : 0 < (-c).toNat := by omega
  have h2 : Int.tdiv minuteNs c = -(Int.tdiv minuteNs (((-c).toNat : Int))) := by
    conv_lhs => rw [hcn]
    exact Int.tdiv_neg minuteNs (((-c).toNat : Int))
  have h3 : Int.tdiv minuteNs (((-c).toNat : Int)) =
      ((60000000000 / (-c).toNat : Nat) : Int) := by
    have := Int.ofNat_tdiv 60000000000 (-c).toNat
    simp only [minuteNs]
    exact_mod_cast this.symm
  have hq : 60000000000 / (-c).toNat = 0 ↔ 60000000000 < (-c).toNat :=
    Nat.div_eq_zero_iff hpos
  refine ⟨h1, by rw [h1, h2, h3], ?_, ?_⟩
  · rw [h1, h2, h3]
    exact neg_nonpos.mpr (Int.natCast_nonneg _)
  · rw [h1, h2, h3]
    simp only [minuteNs]
    generalize (60000000000 : Nat) / (-c).toNat = q at hq
    omega

/-- Witness for C10's amended theorem at `c = -7`:
`RatePerMinute (-7) = -8571428571`, which is strictly negative. -/
theorem ratePerMinute_negative_witness :
    (-7 : Int) < 0 ∧
    (RatePerMinute (-7) = Int.tdiv minuteNs (-7) ∧
     RatePerMinute (-7) = -(((60000000000 / (-(-7 : Int)).toNat : Nat)) : Int) ∧
     RatePerMinute (-7) ≤ 0 ∧
     (RatePerMinute (-7) < 0 ↔ -minuteNs ≤ -7)) :=
  ⟨by norm_num, ratePerMinute_negative (-7) (by norm_num)⟩

/-- C7: `Start` with a nil context, a non-positive rate, or on an
already-started pipe fails fatally (an `Except.error`, modelling the Go
panic) deterministically; no `.ok` state is produced, so the ticker and
context are not set and no worker is launched by the failing call. -/
theorem start_precondition_fatal (st : PipeState) (ctxIsNil : Bool) (rate : Int)
    (h : ctxIsNil = true ∨ rate ≤ 0 ∨ st.started = true) :
    (∃ msg, Start st ctxIsNil rate = .error msg) ∧
    ∀ st', Start st ctxIsNil rate ≠ .ok st' := by
  have herr : ∃ msg, Start st ctxIsNil rate = .error msg := by
    by_cases h1 : ctxIsNil = true
    · exact ⟨"faucet.Pipe.Start nil context", by simp [Start, h1]⟩
    · by_cases h2 : rate ≤ 0
      · exact ⟨"faucet.Pipe.Start rate <= 0", by simp [Start, h1, h2]⟩
      · have h3 : st.started = true := by
          rcases h with h | h | h
          · exact absurd h h1
          · exact absurd h h2
          · exact h
        exact ⟨"faucet.Pipe.Start already started", by simp [Start, h1, h2, h3]⟩
  obtain ⟨msg, hmsg⟩ := herr
  refine ⟨⟨msg, hmsg⟩, fun st' hok => ?_⟩
  rw [hmsg] at hok
  exact Except.noConfusion hok

/-- Witness for C7: starting a fresh pipe with a nil context and rate 5
fails fatally. -/
theorem start_precondition_fatal_witness :
    (true = true ∨ (5 : Int) ≤ 0 ∨ PipeState.started ⟨false, false⟩ = true) ∧
    ((∃ msg, Start ⟨false, false⟩ true 5 = .error msg) ∧
     ∀ st', Start ⟨false, false⟩ true 5 ≠ .ok st') :=
  ⟨Or.inl rfl, start_precondition_fatal ⟨false, false⟩ true 5 (Or.inl rfl)⟩

/-- C6: after `Start`, `Stop` never fails and is idempotent (the second
call is a no-op on the state); and a worker that exits because of the
stop request — whether the select observes the closed stop channel or a
pending tick re-checks it under the lock — stores a nil terminal error
and then closes the done channel. -/
theorem stop_idempotent_clean_exit (st : PipeState) (hst : st.started = true) :
    (Stop st = .ok { st with stopClosed := true } ∧
     Stop { st with stopClosed := true } = .ok { st with stopClosed := true }) ∧
    (∀ (s : TickScript) (rest : List TickScript) (i li : Nat),
      s.headCtxErr = none → s.choice = .stopFired →
      workerLoop (s :: rest) i false li =
        .exited none [.lockAcquire, .setErr none, .lockRelease, .cancel, .closeDone]) ∧
    (∀ (s : TickScript) (rest : List TickScript) (i li : Nat),
      s.headCtxErr = none → s.stopClosed = true →
      workerLoop (s :: rest) i true li =
        .exited none [.startTick i, .lockAcquire, .lockRelease,
          .lockAcquire, .setErr none, .lockRelease, .cancel, .closeDone]) := by
  refine ⟨⟨by simp [Stop, hst], by simp [Stop, hst]⟩, ?_, ?_⟩
  · intro s rest i li h1 h2
    simp [workerLoop, h1, h2, workerExit]
  · intro s rest i li h1 h2
    simp [workerLoop, h1, tick, h2, afterTick, workerExit]

/-- Witness for C6 on a started pipe: `Stop` succeeds and is a no-op the
second time, and the two stop-exit paths store a nil error before
closing the done channel. -/
theorem stop_idempotent_clean_exit_witness :
    PipeState.started ⟨true, false⟩ = true ∧
    ((Stop ⟨true, false⟩ = .ok ⟨true, true⟩ ∧
      Stop ⟨true, true⟩ = .ok ⟨true, true⟩) ∧
     (∀ (s : TickScript) (rest : List TickScript) (i li : Nat),
       s.headCtxErr = none → s.choice = .stopFired →
       workerLoop (s :: rest) i false li =
         .exited none [.lockAcquire, .setErr none, .lockRelease, .cancel, .closeDone]) ∧
     (∀ (s : TickScript) (rest : List TickScript) (i li : Nat),
       s.headCtxErr = none → s.stopClosed = true →
       workerLoop (s :: rest) i true li =
         .exited none [.startTick i, .lockAcquire, .lockRelease,
           .lockAcquire, .setErr none, .lockRelease, .cancel, .closeDone])) :=
  ⟨rfl, stop_idempotent_clean_exit ⟨true, false⟩ rfl⟩

/-- C1: on a tick with counter `i` over a non-empty snapshotted input
list, the worker polls exactly the rotated indices `(i+0) % L`,
`(i+1) % L`, ... up to and including the first input that yields a
value: "not found" continues the scan at the next rotated index and the
first "found" ends it, with no later input polled that tick; and the
tick counters of any worker run are consecutive from 0 — the counter
advances by one per tick. -/
theorem tick_scan_rotation (i j : Nat) (v : Value) (s : TickScript) (li : Nat)
    (hstop : s.stopClosed = false)
    (hctx : ∀ k, s.ctxErrAt k = none)
    (hj : j < s.inputs.length)
    (hbefore : ∀ k < j, s.inputs.getD ((i + k) % s.inputs.length) .notFound = .notFound)
    (hfound : s.inputs.getD ((i + j) % s.inputs.length) .notFound = .found v) :
    (tick i s li).events.filter Event.isPoll =
      (List.range (j + 1)).map (fun k => Event.pollInput ((i + k) % s.inputs.length)) ∧
    ∀ scripts, ∃ t, startTickVals (worker scripts).trace = List.range t := by
  constructor
  · by_cases houts : s.outputs.length = 0
    · rw [tick_found_no_outputs i j v s li hstop hctx hj hbefore hfound houts]
      simp only [TickOut.events, List.filter_append, filter_isPoll_pollsOf]
      simp [List.filter, Event.isPoll, pollsOf, List.range_succ]
    · rw [tick_found_outputs i j v s li hstop hctx hj hbefore hfound houts]
      simp only [TickOut.events, List.filter_append, filter_isPoll_pollsOf]
      simp [List.filter, Event.isPoll, pollsOf, List.range_succ, filter_isPoll_invokes]
  · intro scripts
    obtain ⟨t, ht⟩ := startTickVals_workerLoop scripts 0 true 0
    exact ⟨t, by simpa [worker] using ht⟩

/-- Witness for C1 on tick 0 of `twoFailScript`: input 0 is polled first
and reports "not found", input 1 is polled next and yields 42, ending
the scan. -/
theorem tick_scan_rotation_witness :
    (twoFailScript.stopClosed = false ∧
     (∀ k, twoFailScript.ctxErrAt k = none) ∧
     1 < twoFailScript.inputs.length ∧
     (∀ k < 1, twoFailScript.inputs.getD
       ((0 + k) % twoFailScript.inputs.length) .notFound = .notFound) ∧
     twoFailScript.inputs.getD ((0 + 1) % twoFailScript.inputs.length) .notFound =
       .found 42) ∧
    ((tick 0 twoFailScript 0).events.filter Event.isPoll =
      (List.range (1 + 1)).map (fun k => Event.pollInput ((0 + k) % twoFailScript.inputs.length)) ∧
     ∀ scripts, ∃ t, startTickVals (worker scripts).trace = List.range t) :=
  ⟨⟨rfl, fun _ => rfl, by decide, by decide, by decide⟩,
   tick_scan_rotation 0 1 42 twoFailScript 0 rfl (fun _ => rfl)
     (by decide) (by decide) (by decide)⟩

/-- C3: whenever the worker exits, its trace ends with exactly one store
of the terminal error, performed under the mutex, followed by the
context cancel and, last of all, the close of the done channel: the
error slot is written exactly once, only by the worker, strictly before
the done signal fires, and nothing is written after the done signal, so
any observer of the done signal reads a stable `Err()` value. -/
theorem terminal_error_write_once (scripts : List TickScript) (i : Nat) (first : Bool)
    (li : Nat) (e : Option GoErr) (tr : List Event)
    (h : workerLoop scripts i first li = .exited e tr) :
    tr.filter Event.isSetErr = [Event.setErr e] ∧
    tr.getLast? = some Event.closeDone ∧
    ∃ pre, tr = pre ++ [.lockAcquire, .setErr e, .lockRelease, .cancel, .closeDone] ∧
      ∀ ev ∈ pre, ev.isSetErr = false ∧ ev ≠ .closeDone := by
  obtain ⟨pre, hpre, hprop⟩ := workerLoop_exit_shape scripts i first li e tr h
  refine ⟨?_, ?_, pre, hpre, hprop⟩
  · rw [hpre, List.filter_append]
    have h1 : pre.filter Event.isSetErr = [] :=
      List.filter_eq_nil_iff.mpr fun a ha => by simp [(hprop a ha).1]
    rw [h1]
    rfl
  · rw [hpre]
    rw [show pre ++ [Event.lockAcquire, Event.setErr e, Event.lockRelease,
      Event.cancel, Event.closeDone] =
      (pre ++ [Event.lockAcquire, Event.setErr e, Event.lockRelease, Event.cancel]) ++
        [Event.closeDone] by simp]
    exact List.getLast?_concat _

/-- Witness for C3: a worker that observes a cancelled context exits
with the wrapped context error; its trace ends with the single error
store before the done close. -/
theorem terminal_error_write_once_witness :
    workerLoop [cancelledScript] 0 true 0 =
      .exited (some (.ctxError "context canceled"))
        [.lockAcquire, .setErr (some (.ctxError "context canceled")), .lockRelease,
          .cancel, .closeDone] ∧
    (([Event.lockAcquire, Event.setErr (some (.ctxError "context canceled")),
        Event.lockRelease, Event.cancel, Event.closeDone] : List Event).filter
          Event.isSetErr =
      [Event.setErr (some (.ctxError "context canceled"))] ∧
     ([Event.lockAcquire, Event.setErr (some (.ctxError "context canceled")),
        Event.lockRelease, Event.cancel, Event.closeDone] : List Event).getLast? =
      some Event.closeDone ∧
     ∃ pre, ([Event.lockAcquire, Event.setErr (some (.ctxError "context canceled")),
        Event.lockRelease, Event.cancel, Event.closeDone] : List Event) =
        pre ++ [.lockAcquire, .setErr (some (.ctxError "context canceled")),
          .lockRelease, .cancel, .closeDone] ∧
        ∀ ev ∈ pre, ev.isSetErr = false ∧ ev ≠ .closeDone) :=
  ⟨by decide,
   terminal_error_write_once [cancelledScript] 0 true 0
     (some (.ctxError "context canceled")) _ (by decide)⟩

/-- C4: when the rotated scan reaches an input that reports an error,
the tick aborts at once — the trace is exactly the polls of the rotated
prefix (no output invocation, no later poll) — with the wrapped error
tagged with that input's rotation index, and the worker loop exits
storing that error as the terminal error. -/
theorem input_error_aborts (i j : Nat) (msg : String) (s : TickScript)
    (rest : List TickScript) (li : Nat) (first : Bool)
    (hh : s.headCtxErr = none)
    (hfc : first = true ∨ s.choice = .tickFired)
    (hstop : s.stopClosed = false)
    (hctx : ∀ k, s.ctxErrAt k = none)
    (hj : j < s.inputs.length)
    (hbefore : ∀ k < j, s.inputs.getD ((i + k) % s.inputs.length) .notFound = .notFound)
    (herr : s.inputs.getD ((i + j) % s.inputs.length) .notFound = .errored msg) :
    tick i s li =
      .normal false (some (.inputError ((i + j) % s.inputs.length) msg))
        ((i + j) % s.inputs.length)
        ([.startTick i, .lockAcquire] ++ pollsOf i s.inputs.length (List.range j) ++
          [.pollInput ((i + j) % s.inputs.length), .lockRelease]) ∧
    (workerLoop (s :: rest) i first li).exitErr =
      some (some (.inputError ((i + j) % s.inputs.length) msg)) := by
  have ht := tick_input_error i j msg s li hstop hctx hj hbefore herr
  refine ⟨ht, ?_⟩
  rw [workerLoop_exits_on_false s rest i li first hh hfc _ _ _ ht]
  rfl

/-- Witness for C4 on tick 0 of `inputErrScript`: input 0 errors
immediately; the tick aborts and the worker exits with the
index-tagged error. -/
theorem input_error_aborts_witness :
    (inputErrScript.headCtxErr = none ∧
     (true = true ∨ inputErrScript.choice = .tickFired) ∧
     inputErrScript.stopClosed = false ∧
     (∀ k, inputErrScript.ctxErrAt k = none) ∧
     0 < inputErrScript.inputs.length ∧
     (∀ k < 0, inputErrScript.inputs.getD
       ((0 + k) % inputErrScript.inputs.length) .notFound = .notFound) ∧
     inputErrScript.inputs.getD ((0 + 0) % inputErrScript.inputs.length) .notFound =
       .errored "bad") ∧
    (tick 0 inputErrScript 0 =
      .normal false (some (.inputError ((0 + 0) % inputErrScript.inputs.length) "bad"))
        ((0 + 0) % inputErrScript.inputs.length)
        ([.startTick 0, .lockAcquire] ++ pollsOf 0 inputErrScript.inputs.length (List.range 0) ++
          [.pollInput ((0 + 0) % inputErrScript.inputs.length), .lockRelease]) ∧
     (workerLoop [inputErrScript] 0 true 0).exitErr =
       some (some (.inputError ((0 + 0) % inputErrScript.inputs.length) "bad"))) :=
  ⟨⟨rfl, Or.inl rfl, rfl, fun _ => rfl, by decide, by decide, by decide⟩,
   input_error_aborts 0 0 "bad" inputErrScript [] 0 true rfl (Or.inl rfl) rfl
     (fun _ => rfl) (by decide) (by decide) (by decide)⟩

/-- C2: on a tick where value `v` is fanned out to `N > 0` outputs:
every output is invoked with the same value `v`; a panic inside an
output is converted into an index-tagged recovered-panic error without
preventing any other output's invocation; the leaves of the aggregated
error are — up to the arrival order of the per-output results — exactly
the index-tagged errors of all failing outputs, joined into one
composite error; the tick lets the loop continue iff no output failed,
and if any output failed the worker exits after this tick, storing the
composite error as the terminal error. -/
theorem fanout_error_aggregation (i j : Nat) (v : Value) (s : TickScript)
    (rest : List TickScript) (li : Nat) (first : Bool)
    (hh : s.headCtxErr = none)
    (hfc : first = true ∨ s.choice = .tickFired)
    (hstop : s.stopClosed = false)
    (hctx : ∀ k, s.ctxErrAt k = none)
    (hj : j < s.inputs.length)
    (hbefore : ∀ k < j, s.inputs.getD ((i + k) % s.inputs.length) .notFound = .notFound)
    (hfound : s.inputs.getD ((i + j) % s.inputs.length) .notFound = .found v)
    (houts : s.outputs.length ≠ 0)
    (hperm : s.arrival.Perm (List.range s.outputs.length)) :
    (∀ x < s.outputs.length, Event.invokeOutput x v ∈ (tick i s li).events) ∧
    (errLeaves (tick i s li).errOf).Perm
      ((List.range s.outputs.length).filterMap fun x =>
        outputErrOf x (s.outputs.getD x .ok)) ∧
    (∀ x p, x < s.outputs.length → s.outputs.getD x .ok = .panicked p →
      .outputPanicRecovered x p ∈ errLeaves (tick i s li).errOf) ∧
    ((tick i s li).contOf = true ↔
      (List.range s.outputs.length).filterMap (fun x =>
        outputErrOf x (s.outputs.getD x .ok)) = []) ∧
    ((List.range s.outputs.length).filterMap (fun x =>
        outputErrOf x (s.outputs.getD x .ok)) ≠ [] →
      (workerLoop (s :: rest) i first li).exitErr = some ((tick i s li).errOf)) := by
  have ht := tick_found_outputs i j v s li hstop hctx hj hbefore hfound houts
  have hsing : ∀ e, some e ∈ s.arrival.map (fun x => outputErrOf x (s.outputs.getD x .ok)) →
      GoErr.leaves e = [e] := by
    intro e he
    obtain ⟨x, _, hfe⟩ := List.mem_map.mp he
    cases hg : s.outputs.getD x .ok with
    | ok =>
      rw [hg] at hfe
      exact absurd hfe (by simp [outputErrOf])
    | errored m =>
      rw [hg] at hfe
      simp only [outputErrOf, Option.some.injEq] at hfe
      rw [← hfe]
      simp [GoErr.leaves]
    | panicked p =>
      rw [hg] at hfe
      simp only [outputErrOf, Option.some.injEq] at hfe
      rw [← hfe]
      simp [GoErr.leaves]
  have hleaves : errLeaves (tick i s li).errOf =
      s.arrival.filterMap fun x => outputErrOf x (s.outputs.getD x .ok) := by
    rw [ht]
    simp only [TickOut.errOf]
    rw [errLeaves_collectErrs _ hsing, List.filterMap_map]
    rfl
  have hpermF := hperm.filterMap fun x => outputErrOf x (s.outputs.getD x .ok)
  have hperm2 : (errLeaves (tick i s li).errOf).Perm
      ((List.range s.outputs.length).filterMap fun x =>
        outputErrOf x (s.outputs.getD x .ok)) := by
    rw [hleaves]
    exact hpermF
  have hq : (s.arrival.filterMap fun x => outputErrOf x (s.outputs.getD x .ok)) = [] ↔
      ((List.range s.outputs.length).filterMap fun x =>
        outputErrOf x (s.outputs.getD x .ok)) = [] := by
    constructor
    · intro h0
      rw [h0] at hpermF
      exact hpermF.symm.eq_nil
    · intro h0
      rw [h0] at hpermF
      exact hpermF.eq_nil
  refine ⟨?_, hperm2, ?_, ?_, ?_⟩
  · intro x hx
    rw [ht]
    simp only [TickOut.events]
    have hmem : Event.invokeOutput x v ∈
        (List.range s.outputs.length).map (fun y => Event.invokeOutput y v) :=
      List.mem_map.mpr ⟨x, List.mem_range.mpr hx, rfl⟩
    refine List.mem_append.mpr (Or.inl ?_)
    refine List.mem_append.mpr (Or.inr ?_)
    exact List.mem_cons.mpr (Or.inr hmem)
  · intro x p hx hgx
    refine hperm2.mem_iff.mpr (List.mem_filterMap.mpr ⟨x, List.mem_range.mpr hx, ?_⟩)
    rw [hgx]
    rfl
  · rw [ht]
    simp only [TickOut.contOf]
    rw [Option.isNone_iff_eq_none, collectErrs_eq_none_iff _ hsing, List.filterMap_map]
    exact hq
  · intro hne
    have hcn : collectErrs (s.arrival.map fun x =>
        outputErrOf x (s.outputs.getD x .ok)) ≠ none := by
      intro h0
      have h1 := (collectErrs_eq_none_iff _ hsing).mp h0
      rw [List.filterMap_map] at h1
      exact hne (hq.mp h1)
    have hfalse : (collectErrs (s.arrival.map fun x =>
        outputErrOf x (s.outputs.getD x .ok))).isNone = false := by
      cases hcol : collectErrs (s.arrival.map fun x =>
        outputErrOf x (s.outputs.getD x .ok)) with
      | none => exact absurd hcol hcn
      | some e => rfl
    have ht' := ht
    rw [hfalse] at ht'
    rw [workerLoop_exits_on_false s rest i li first hh hfc _ _ _ ht']
    rw [ht]
    rfl

/-- Witness for C2 on tick 0 of `twoFailScript`: both outputs are
invoked with 42; output 0's error and output 1's recovered panic both
appear, index-tagged, in the aggregated terminal error even though
their results arrive in reversed order, and the worker exits. -/
theorem fanout_error_aggregation_witness :
    (twoFailScript.headCtxErr = none ∧
     (true = true ∨ twoFailScript.choice = .tickFired) ∧
     twoFailScript.stopClosed = false ∧
     (∀ k, twoFailScript.ctxErrAt k = none) ∧
     1 < twoFailScript.inputs.length ∧
     (∀ k < 1, twoFailScript.inputs.getD
       ((0 + k) % twoFailScript.inputs.length) .notFound = .notFound) ∧
     twoFailScript.inputs.getD ((0 + 1) % twoFailScript.inputs.length) .notFound =
       .found 42 ∧
     twoFailScript.outputs.length ≠ 0 ∧
     twoFailScript.arrival.Perm (List.range twoFailScript.outputs.length)) ∧
    ((∀ x < twoFailScript.outputs.length,
       Event.invokeOutput x 42 ∈ (tick 0 twoFailScript 0).events) ∧
     (errLeaves (tick 0 twoFailScript 0).errOf).Perm
       ((List.range twoFailScript.outputs.length).filterMap fun x =>
         outputErrOf x (twoFailScript.outputs.getD x .ok)) ∧
     (∀ x p, x < twoFailScript.outputs.length →
       twoFailScript.outputs.getD x .ok = .panicked p →
       .outputPanicRecovered x p ∈ errLeaves (tick 0 twoFailScript 0).errOf) ∧
     ((tick 0 twoFailScript 0).contOf = true ↔
       (List.range twoFailScript.outputs.length).filterMap (fun x =>
         outputErrOf x (twoFailScript.outputs.getD x .ok)) = []) ∧
     ((List.range twoFailScript.outputs.length).filterMap (fun x =>
         outputErrOf x (twoFailScript.outputs.getD x .ok)) ≠ [] →
       (workerLoop [twoFailScript] 0 true 0).exitErr =
         some ((tick 0 twoFailScript 0).errOf))) :=
  ⟨⟨rfl, Or.inl rfl, rfl, fun _ => rfl, by decide, by decide, by decide, by decide,
    by decide⟩,
   fanout_error_aggregation 0 1 42 twoFailScript [] 0 true rfl (Or.inl rfl) rfl
     (fun _ => rfl) (by decide) (by decide) (by decide) (by decide) (by decide)⟩

/-- C5: a worker whose script has zero inputs registered keeps running
for any number of iterations as clean no-op ticks — it never calls user
code and never stores a terminal error; and a worker whose inputs all
always report "not found" behaves identically to the zero-input worker:
its trace differs only by the input poll events, and it likewise never
invokes an output or stores an error. -/
theorem no_input_noop_ticks :
    (∀ scripts : List TickScript,
      (∀ s ∈ scripts, s.headCtxErr = none ∧ s.stopClosed = false ∧
        s.choice = SelectChoice.tickFired ∧ s.inputs = []) →
      ∀ (i : Nat) (first : Bool) (li : Nat), ∃ tr,
        workerLoop scripts i first li = .running tr ∧
        ∀ e ∈ tr, e.isCall = false ∧ e.isSetErr = false) ∧
    (∀ scripts : List TickScript,
      (∀ s ∈ scripts, s.headCtxErr = none ∧ s.stopClosed = false ∧
        s.choice = SelectChoice.tickFired ∧ (∀ k, s.ctxErrAt k = none) ∧
        (∀ x ∈ s.inputs, x = InputResult.notFound)) →
      ∀ (i : Nat) (first : Bool) (li li₂ : Nat), ∃ tr tr₂,
        workerLoop scripts i first li = .running tr ∧
        workerLoop (scripts.map fun s => { s with inputs := [] }) i first li₂ =
          .running tr₂ ∧
        tr.filter (fun e => !e.isPoll) = tr₂ ∧
        ∀ e ∈ tr, e.isInvoke = false ∧ e.isSetErr = false) :=
  ⟨workerLoop_no_inputs, workerLoop_all_notFound⟩

/-- Witness for C5: a one-iteration zero-input worker run, and a
one-iteration all-"not found" run compared against its zero-input
erasure. -/
theorem no_input_noop_ticks_witness :
    (∃ tr, workerLoop [zeroInputScript] 0 true 0 = .running tr ∧
      ∀ e ∈ tr, e.isCall = false ∧ e.isSetErr = false) ∧
    (∃ tr tr₂, workerLoop [notFoundScript] 0 true 0 = .running tr ∧
      workerLoop ([notFoundScript].map fun s => { s with inputs := [] }) 0 true 0 =
        .running tr₂ ∧
      tr.filter (fun e => !e.isPoll) = tr₂ ∧
      ∀ e ∈ tr, e.isInvoke = false ∧ e.isSetErr = false) :=
  ⟨no_input_noop_ticks.1 [zeroInputScript]
     (by
       intro s hs
       simp only [List.mem_singleton] at hs
       subst hs
       exact ⟨rfl, rfl, rfl, rfl⟩)
     0 true 0,
   no_input_noop_ticks.2 [notFoundScript]
     (by
       intro s hs
       simp only [List.mem_singleton] at hs
       subst hs
       exact ⟨rfl, rfl, rfl, fun _ => rfl, by decide⟩)
     0 true 0 0⟩

/-- C9 counterexample: on a tick of `underLockScript` (one input that
yields a value, one output), the input poll and the output fan-out both
happen while the worker holds the exclusive lock, so "the lock is never
held for the duration of an input poll call or an output delivery call"
is false for this code. -/
theorem lock_free_calls_counterexample :
    locksFreeDuringCalls 0 (tick 0 underLockScript 0).events = false := by decide

/-- C9 amended: the exclusive lock is held for the whole tick body —
every input poll and the entire output fan-out (and the terminal-error
store on exit) happen with the lock held, in every worker run. -/
theorem calls_happen_under_lock (scripts : List TickScript) (i : Nat) (first : Bool)
    (li : Nat) :
    callsUnderLock 0 (workerLoop scripts i first li).trace = true :=
  workerLoop_calls_under_lock scripts i first li

end Faucet
